import Mathlib

/-!
# Verification of the `reuse` object pool (`src/reuse/reuse.h`, `src/reuse/use.h`)

A shallow embedding of the `reuse::pool<T>` class and its `pool_use` / `use`
checkout handles.  The pool stores idle instances in per-initializer buckets
(`m_initBuckets`, modelled as an association list built only through the pool's
own insertion operation) plus one default bucket (`m_unBucket`), counts idle
inventory in an `atomic<int>` (`m_size`, read back through a `size_t` cast in
`size()`), and feeds a background cleaning thread through a vector
(`m_incoming`).  C++ vectors are modelled as Lean lists whose *last* element is
the vector's `back()`; `push_back` appends, `pop_back` is `dropLast`.

Pooled objects (`T`, implementing the `reusable` contract) are modelled by
`Inst`: an immutable initializer string (`reusable::m_initializer`, which has
no mutating interface), a constant `cleanInBackground()` flag, and a mutable
payload on which `T::clean()` acts.  `Inst.cleaned` is ghost instrumentation
recording that `clean()` has run; it is set exactly where the C++ calls
`t->clean()`.  `PoolState.destroyed` is ghost instrumentation counting the
`delete t` sites.

Concurrency is modelled as a sequential interleaving: each call to `get`,
`put`, `clear` and each iteration of the `cleanup` worker loop is one atomic
step (`Ev`/`step`), and reachable states are folds of event lists from the
initial state (`run`).  Machine arithmetic: `m_size` is a 32-bit `int` whose
`fetch_add` wraps (atomic arithmetic is modular two's complement); every
update of `m_size` therefore goes through `intWrap`, reduction into
`[-2^31, 2^31)`; the `size_t(...)` cast in `pool::size()` is modelled
faithfully as reduction mod 2^64 (`toSizeT`), so a wrapped-negative counter
reads back as a value near 2^64.
-/

namespace Reuse

/-- A pooled object: the `reusable` contract of `reuse.h`.
`initializer` is `reusable::m_initializer` (immutable: it is private with no
setter), `cleanInBg` is the constant `cleanInBackground()` hint, `payload` is
the object's mutable state on which `clean()` acts (e.g. `test_class::data`),
and `cleaned` is a ghost flag set exactly when `clean()` runs. -/
structure Inst (α : Type) where
  initializer : String
  cleanInBg : Bool
  payload : α
  cleaned : Bool
deriving DecidableEq, Repr

/-- The effect of `t->clean()` for a clean routine `f` acting on the mutable
payload (the initializer is immutable and `cleanInBackground()` is `const`).
Sets the ghost `cleaned` flag. -/
def cleanApply (f : α → α) (t : Inst α) : Inst α :=
  { t with payload := f t.payload, cleaned := true }

/-- The constant parameters of a `pool<T>`: the stored caller-supplied
construction function `m_constructor`, the behaviour of the expression
`new T(initializer)` (`T`'s own one-argument constructor, which is what
`pool::get` actually invokes on a miss), the effect of `T::clean()`, and
the two capacity bounds (`size_t` in C++, hence below 2^64). -/
structure PoolCfg (α : Type) where
  constructor : String → Inst α
  newT : String → Inst α
  cleanFn : α → α
  maxInventory : Nat
  maxToClean : Nat

/-- The mutable state of a `pool<T>`.  Field names follow the C++ members.
`m_initBuckets` (an `unordered_map`) is an association list containing one
entry per key, built only by the pool's own insertion paths.  `destroyed`
is a ghost counter incremented at every `delete t` site. -/
structure PoolState (α : Type) where
  m_unBucket : List (Inst α)
  m_initBuckets : List (String × List (Inst α))
  m_size : Int
  m_incoming : List (Inst α)
  m_keepRunning : Bool
  m_doneCleaning : Bool
  destroyed : Nat
deriving DecidableEq, Repr

/-- The state of a freshly constructed pool. -/
def initState (α : Type) : PoolState α :=
  { m_unBucket := []
    m_initBuckets := []
    m_size := 0
    m_incoming := []
    m_keepRunning := true
    m_doneCleaning := false
    destroyed := 0 }

/-- The `size_t(...)` conversion applied to `m_size.load()` in `pool::size()`:
reduction of the signed value modulo 2^64. -/
def toSizeT (i : Int) : Nat :=
  (i % (2 : Int) ^ 64).toNat

/-- `pool::size()`: `size_t(m_size.load())`. -/
def size (s : PoolState α) : Nat :=
  toSizeT s.m_size

/-- Two's-complement wrap of the 32-bit `int` stored in `m_size`
(`std::atomic<int>::fetch_add` performs modular arithmetic): reduction of the
mathematical result into `[-2^31, 2^31)`.  Applied at every `fetch_add`
site. -/
def intWrap (i : Int) : Int :=
  (i + 2 ^ 31) % 2 ^ 32 - 2 ^ 31

/-- `m_initBuckets.find(key)`: the bucket stored under `key`, if any. -/
def bucketsFind (bs : List (String × List (Inst α))) (k : String) :
    Option (List (Inst α)) :=
  match bs with
  | [] => none
  | (k', b) :: rest => if k' = k then some b else bucketsFind rest k

/-- `m_initBuckets[key].push_back(t)`: `operator[]` default-constructs an
empty bucket for an absent key, then the instance is appended. -/
def bucketsInsert (bs : List (String × List (Inst α))) (k : String)
    (t : Inst α) : List (String × List (Inst α)) :=
  match bs with
  | [] => [(k, [t])]
  | (k', b) :: rest =>
    if k' = k then (k', b ++ [t]) :: rest else (k', b) :: bucketsInsert rest k t

/-- `it->second.pop_back()` on the entry found for `key`. -/
def bucketsPopBack (bs : List (String × List (Inst α))) (k : String) :
    List (String × List (Inst α)) :=
  match bs with
  | [] => []
  | (k', b) :: rest =>
    if k' = k then (k', b.dropLast) :: rest else (k', b) :: bucketsPopBack rest k

/-- Total number of instances held across the keyed buckets. -/
def bucketsCount (bs : List (String × List (Inst α))) : Nat :=
  (bs.map (fun e => e.2.length)).sum

/-- Total idle inventory actually present in the bucket store
(default bucket plus all keyed buckets). -/
def totalCount (s : PoolState α) : Nat :=
  s.m_unBucket.length + bucketsCount s.m_initBuckets

/-- All instances currently sitting in some bucket. -/
def bucketInsts (s : PoolState α) : List (Inst α) :=
  s.m_unBucket ++ (s.m_initBuckets.map (fun e => e.2)).flatten

/-- `pool<T>::get(initializer)` (reuse.h lines 261-293).  While the pool is
running: an empty initializer pops the back of `m_unBucket` if non-empty; a
non-empty initializer looks its bucket up and pops its back if present and
non-empty; each hit decrements `m_size`.  Failing all of that — including when
the pool is no longer running — the code executes `return new T(initializer)`;
the stored `m_constructor` is not consulted. -/
def get (cfg : PoolCfg α) (s : PoolState α) (initializer : String) :
    Inst α × PoolState α :=
  if s.m_keepRunning then
    if initializer = "" then
      match s.m_unBucket.getLast? with
      | some ret_val =>
        (ret_val,
         { s with m_unBucket := s.m_unBucket.dropLast,
                  m_size := intWrap (s.m_size - 1) })
      | none => (cfg.newT initializer, s)
    else
      match bucketsFind s.m_initBuckets initializer with
      | some b =>
        match b.getLast? with
        | some ret_val =>
          (ret_val,
           { s with m_initBuckets := bucketsPopBack s.m_initBuckets initializer,
                    m_size := intWrap (s.m_size - 1) })
        | none => (cfg.newT initializer, s)
      | none => (cfg.newT initializer, s)
  else (cfg.newT initializer, s)

/-- `pool<T>::put(T* t)` (reuse.h lines 298-339).  A null pointer returns
immediately.  While running, a `cleanInBackground()` instance is appended to
`m_incoming` if that queue is below `maxToClean`; otherwise the synchronous
path runs `t->clean()` and then, if `size() < maxInventory`, appends the
instance to the bucket named by its own `initializer()` and increments
`m_size`.  Every fall-through deletes the instance. -/
def put (cfg : PoolCfg α) (s : PoolState α) (t? : Option (Inst α)) :
    PoolState α :=
  match t? with
  | none => s
  | some t =>
    if s.m_keepRunning then
      if t.cleanInBg then
        if s.m_incoming.length < cfg.maxToClean then
          { s with m_incoming := s.m_incoming ++ [t] }
        else
          { s with destroyed := s.destroyed + 1 }
      else
        let t' := cleanApply cfg.cleanFn t
        if size s < cfg.maxInventory then
          if t'.initializer = "" then
            { s with m_unBucket := s.m_unBucket ++ [t'],
                     m_size := intWrap (s.m_size + 1) }
          else
            { s with m_initBuckets :=
                       bucketsInsert s.m_initBuckets t'.initializer t',
                     m_size := intWrap (s.m_size + 1) }
        else { s with destroyed := s.destroyed + 1 }
    else { s with destroyed := s.destroyed + 1 }

/-- One iteration of the `pool<T>::cleanup()` worker loop (reuse.h lines
375-417).  If `m_keepRunning` is false at the loop head, the loop exits and
sets `m_doneCleaning`.  Otherwise, with an empty `m_incoming` the iteration
is a no-op (`continue`); else the back of `m_incoming` is popped, cleaned,
and then either dropped (when `size() >= maxInventory`) or appended to the
bucket named by its `initializer()`, incrementing `m_size`. -/
def cleanupIter (cfg : PoolCfg α) (s : PoolState α) : PoolState α :=
  if s.m_keepRunning then
    match s.m_incoming.getLast? with
    | none => s
    | some t =>
      let s1 := { s with m_incoming := s.m_incoming.dropLast }
      let t' := cleanApply cfg.cleanFn t
      if cfg.maxInventory ≤ size s1 then
        { s1 with destroyed := s1.destroyed + 1 }
      else if t'.initializer = "" then
        { s1 with m_unBucket := s1.m_unBucket ++ [t'],
                  m_size := intWrap (s1.m_size + 1) }
      else
        { s1 with m_initBuckets :=
                    bucketsInsert s1.m_initBuckets t'.initializer t',
                  m_size := intWrap (s1.m_size + 1) }
  else { s with m_doneCleaning := true }

/-- `pool<T>::clear()` (reuse.h lines 344-369): delete every instance in the
default bucket, every keyed bucket, and the cleaning queue; empty them all;
store 0 into `m_size`. -/
def clear (s : PoolState α) : PoolState α :=
  { s with m_unBucket := []
           m_initBuckets := []
           m_incoming := []
           m_size := 0
           destroyed := s.destroyed + s.m_unBucket.length
                          + bucketsCount s.m_initBuckets
                          + s.m_incoming.length }

/-- `pool<T>::~pool()` (reuse.h lines 218-237): raise the shutdown flag; the
worker loop observes it, exits and acknowledges by setting `m_doneCleaning`
(modelled by `cleanupIter` on the stopped pool); the thread is joined; then
`clear()` drains everything. -/
def dtor (cfg : PoolCfg α) (s : PoolState α) : PoolState α :=
  clear (cleanupIter cfg { s with m_keepRunning := false })

/-- The atomic steps of the sequential interleaving semantics: a caller's
`get` or `put`, one background-worker iteration, the destructor raising the
shutdown flag, and the destructor's `clear`. -/
inductive Ev (α : Type) where
  | getEv (key : String)
  | putEv (t : Option (Inst α))
  | work
  | shutdown
  | clearEv
deriving DecidableEq, Repr

/-- Interpret one event. -/
def step (cfg : PoolCfg α) (s : PoolState α) : Ev α → PoolState α
  | .getEv k => (get cfg s k).2
  | .putEv t => put cfg s t
  | .work => cleanupIter cfg s
  | .shutdown => { s with m_keepRunning := false }
  | .clearEv => clear s

/-- The pool state reached from a fresh pool by a sequence of events. -/
def run (cfg : PoolCfg α) (evs : List (Ev α)) : PoolState α :=
  evs.foldl (step cfg) (initState α)

/-- The RAII checkout handle `pool<T>::pool_use` (reuse.h lines 424-456) and
the identical `reuse::use` (use.h lines 40-72): a single member `m_t : T*`. -/
structure pool_use (α : Type) where
  m_t : Option (Inst α)
deriving DecidableEq, Repr

/-- The `pool_use` constructor: `m_t = m_pool.get(initializer)`. -/
def useCtor (cfg : PoolCfg α) (s : PoolState α) (initializer : String) :
    pool_use α × PoolState α :=
  let r := get cfg s initializer
  ({ m_t := some r.1 }, r.2)

/-- The `pool_use` destructor: `m_pool.put(m_t); m_t = nullptr;`. -/
def useDtor (cfg : PoolCfg α) (s : PoolState α) (u : pool_use α) :
    pool_use α × PoolState α :=
  ({ m_t := none }, put cfg s u.m_t)

/-- `pool_use::get()`: the pointer the handle would dereference. -/
def useGet (u : pool_use α) : Option (Inst α) :=
  u.m_t

/-- What `pool_use h2(std::move(h1))` does: `pool_use` declares a constructor,
a destructor and `get()` but no move operations, so `std::move` selects the
implicitly-declared copy constructor, which copies `m_t` and leaves the
source handle untouched.  Result: (new handle, source handle afterwards). -/
def useMove (u : pool_use α) : pool_use α × pool_use α :=
  ({ m_t := u.m_t }, u)

/-! ## Bucket-store lemmas -/

theorem bucketsFind_insert_self (bs : List (String × List (Inst α)))
    (k : String) (t : Inst α) :
    bucketsFind (bucketsInsert bs k t) k
      = some ((bucketsFind bs k).getD [] ++ [t]) := by
  induction bs with
  | nil => simp [bucketsFind, bucketsInsert]
  | cons e rest ih =>
    obtain ⟨k', b⟩ := e
    by_cases h : k' = k
    · subst h
      simp [bucketsFind, bucketsInsert]
    · simp [bucketsFind, bucketsInsert, h, ih]

theorem bucketsFind_insert_ne {bs : List (String × List (Inst α))}
    {k k' : String} {t : Inst α} (h : k' ≠ k) :
    bucketsFind (bucketsInsert bs k t) k' = bucketsFind bs k' := by
  induction bs with
  | nil => simp [bucketsFind, bucketsInsert, Ne.symm h]
  | cons e rest ih =>
    obtain ⟨k'', b⟩ := e
    by_cases hk : k'' = k
    · subst hk
      simp [bucketsFind, bucketsInsert, Ne.symm h]
    · by_cases hk' : k'' = k'
      · subst hk'
        simp [bucketsFind, bucketsInsert, hk]
      · simp [bucketsFind, bucketsInsert, hk, hk', ih]

theorem bucketsFind_popBack_ne {bs : List (String × List (Inst α))}
    {k k' : String} (h : k' ≠ k) :
    bucketsFind (bucketsPopBack bs k) k' = bucketsFind bs k' := by
  induction bs with
  | nil => simp [bucketsPopBack]
  | cons e rest ih =>
    obtain ⟨k'', b⟩ := e
    by_cases hk : k'' = k
    · subst hk
      simp [bucketsFind, bucketsPopBack, Ne.symm h]
    · by_cases hk' : k'' = k'
      · subst hk'
        simp [bucketsFind, bucketsPopBack, hk]
      · simp [bucketsFind, bucketsPopBack, hk, hk', ih]

theorem bucketsFind_mem {bs : List (String × List (Inst α))}
    {k : String} {b : List (Inst α)} (h : bucketsFind bs k = some b) :
    (k, b) ∈ bs := by
  induction bs with
  | nil => simp [bucketsFind] at h
  | cons e rest ih =>
    obtain ⟨k', b'⟩ := e
    by_cases hk : k' = k
    · subst hk
      simp [bucketsFind] at h
      subst h
      exact List.mem_cons_self _ _
    · simp [bucketsFind, hk] at h
      exact List.mem_cons_of_mem _ (ih h)

theorem bucketsInsert_forall {bs : List (String × List (Inst α))}
    {k : String} {t : Inst α} {Q : String → Inst α → Prop}
    (hbs : ∀ e ∈ bs, ∀ x ∈ e.2, Q e.1 x) (ht : Q k t) :
    ∀ e ∈ bucketsInsert bs k t, ∀ x ∈ e.2, Q e.1 x := by
  induction bs with
  | nil =>
    intro e he x hx
    simp [bucketsInsert] at he
    subst he
    simp at hx
    subst hx
    exact ht
  | cons e0 rest ih =>
    obtain ⟨k', b⟩ := e0
    by_cases hk : k' = k
    · subst hk
      intro e he x hx
      simp [bucketsInsert] at he
      rcases he with he | he
      · subst he
        simp only [List.mem_append, List.mem_singleton] at hx
        rcases hx with hx | hx
        · exact hbs (k', b) (List.mem_cons_self _ _) x hx
        · subst hx
          exact ht
      · exact hbs e (List.mem_cons_of_mem _ he) x hx
    · intro e he x hx
      simp [bucketsInsert, hk] at he
      rcases he with he | he
      · subst he
        exact hbs (k', b) (List.mem_cons_self _ _) x hx
      · exact ih (fun e' he' => hbs e' (List.mem_cons_of_mem _ he')) e he x hx

theorem bucketsPopBack_forall {bs : List (String × List (Inst α))}
    {k : String} {Q : String → Inst α → Prop}
    (hbs : ∀ e ∈ bs, ∀ x ∈ e.2, Q e.1 x) :
    ∀ e ∈ bucketsPopBack bs k, ∀ x ∈ e.2, Q e.1 x := by
  induction bs with
  | nil => simp [bucketsPopBack]
  | cons e0 rest ih =>
    obtain ⟨k', b⟩ := e0
    by_cases hk : k' = k
    · subst hk
      intro e he x hx
      simp [bucketsPopBack] at he
      rcases he with he | he
      · subst he
        exact hbs (k', b) (List.mem_cons_self _ _) x
          ((List.dropLast_sublist b).subset hx)
      · exact hbs e (List.mem_cons_of_mem _ he) x hx
    · intro e he x hx
      simp [bucketsPopBack, hk] at he
      rcases he with he | he
      · subst he
        exact hbs (k', b) (List.mem_cons_self _ _) x hx
      · exact ih (fun e' he' => hbs e' (List.mem_cons_of_mem _ he')) e he x hx

theorem bucketsCount_insert (bs : List (String × List (Inst α)))
    (k : String) (t : Inst α) :
    bucketsCount (bucketsInsert bs k t) = bucketsCount bs + 1 := by
  induction bs with
  | nil => simp [bucketsCount, bucketsInsert]
  | cons e rest ih =>
    obtain ⟨k', b⟩ := e
    by_cases hk : k' = k
    · subst hk
      simp [bucketsCount, bucketsInsert]
      omega
    · simp only [bucketsInsert, if_neg hk]
      simp only [bucketsCount, List.map_cons, List.sum_cons] at ih ⊢
      omega

theorem bucketsFind_length_le {bs : List (String × List (Inst α))}
    {k : String} {b : List (Inst α)} (h : bucketsFind bs k = some b) :
    b.length ≤ bucketsCount bs := by
  induction bs with
  | nil => simp [bucketsFind] at h
  | cons e rest ih =>
    obtain ⟨k', b'⟩ := e
    by_cases hk : k' = k
    · subst hk
      simp [bucketsFind] at h
      subst h
      simp [bucketsCount]
    · simp [bucketsFind, hk] at h
      have := ih h
      simp [bucketsCount] at this ⊢
      omega

theorem bucketsCount_popBack {bs : List (String × List (Inst α))}
    {k : String} {b : List (Inst α)} (h : bucketsFind bs k = some b)
    (hb : b ≠ []) :
    bucketsCount (bucketsPopBack bs k) + 1 = bucketsCount bs := by
  induction bs with
  | nil => simp [bucketsFind] at h
  | cons e rest ih =>
    obtain ⟨k', b'⟩ := e
    by_cases hk : k' = k
    · subst hk
      simp [bucketsFind] at h
      subst h
      have hlen : 0 < b'.length := List.length_pos.mpr hb
      simp [bucketsCount, bucketsPopBack]
      omega
    · simp [bucketsFind, hk] at h
      have := ih h
      simp only [bucketsPopBack, if_neg hk]
      simp only [bucketsCount, List.map_cons, List.sum_cons] at this ⊢
      omega

/-! ## The inductive invariant of reachable pool states -/

theorem toSizeT_natCast {n : Nat} (h : n < 2 ^ 64) : toSizeT (n : Int) = n := by
  unfold toSizeT
  rw [Int.emod_eq_of_lt (by positivity) (by exact_mod_cast h)]
  simp

theorem intWrap_eq_self {i : Int} (h1 : -(2 ^ 31) ≤ i) (h2 : i < 2 ^ 31) :
    intWrap i = i := by
  unfold intWrap
  omega

theorem intWrap_add_congr (x y : Int) :
    intWrap (intWrap x + y) = intWrap (x + y) := by
  unfold intWrap
  omega

theorem intWrap_sub_congr (x y : Int) :
    intWrap (intWrap x - y) = intWrap (x - y) := by
  unfold intWrap
  omega

/-- The per-bucket element property: an instance stored under key `k` carries
`k` as its own initializer, has been cleaned, and its payload is an output of
the clean routine. -/
def bucketOK (cfg : PoolCfg α) (k : String) (t : Inst α) : Prop :=
  t.initializer = k ∧ t.cleaned = true ∧ ∃ p, t.payload = cfg.cleanFn p

/-- Invariant: `m_size` is the wrapped image of the actual bucket occupancy;
whenever `maxInventory` is small enough that the 32-bit counter cannot wrap
(`maxInventory < 2^31`), the occupancy never exceeds `maxInventory`; every
instance in the default bucket has the empty initializer and every instance in
a keyed bucket carries that bucket's key as its own initializer; and every
bucketed instance has been cleaned (`clean()` ran, and its payload is an
output of the clean routine). -/
structure INV (cfg : PoolCfg α) (s : PoolState α) : Prop where
  sizeEq : s.m_size = intWrap (totalCount s)
  sizeLe : cfg.maxInventory < 2 ^ 31 → totalCount s ≤ cfg.maxInventory
  unB : ∀ t ∈ s.m_unBucket, bucketOK cfg "" t
  keyB : ∀ e ∈ s.m_initBuckets, ∀ t ∈ e.2, bucketOK cfg e.1 t

theorem INV_initState (cfg : PoolCfg α) : INV cfg (initState α) := by
  refine ⟨?_, ?_, ?_, ?_⟩
  · show (0 : Int) = intWrap ((0 : Nat) : Int)
    decide
  · intro _
    simp [initState, totalCount, bucketsCount]
  · simp [initState]
  · simp [initState]

/-- While the occupancy counter cannot wrap (`maxInventory < 2^31`, so the
invariant bounds the count below 2^31), `pool::size()` reports the exact
occupancy. -/
theorem size_eq_totalCount {cfg : PoolCfg α} {s : PoolState α} (h : INV cfg s)
    (hmax : cfg.maxInventory < 2 ^ 31) : size s = totalCount s := by
  have hle := h.sizeLe hmax
  unfold size
  rw [h.sizeEq, intWrap_eq_self (by omega) (by exact_mod_cast lt_of_le_of_lt hle hmax),
    toSizeT_natCast (by omega)]

theorem INV_popUn {cfg : PoolCfg α} {s : PoolState α} (h : INV cfg s)
    (hne : s.m_unBucket ≠ []) :
    INV cfg { s with m_unBucket := s.m_unBucket.dropLast,
                     m_size := intWrap (s.m_size - 1) } := by
  have hlen : 0 < s.m_unBucket.length := List.length_pos.mpr hne
  have hs := h.sizeEq
  constructor
  · simp only [totalCount] at hs ⊢
    simp only [List.length_dropLast]
    rw [hs, intWrap_sub_congr]
    congr 1
    omega
  · intro hmax
    have := h.sizeLe hmax
    simp only [totalCount, List.length_dropLast] at this ⊢
    omega
  · intro t ht
    exact h.unB t ((List.dropLast_sublist _).subset ht)
  · exact h.keyB

theorem INV_popKey {cfg : PoolCfg α} {s : PoolState α} {k : String}
    {b : List (Inst α)} (h : INV cfg s)
    (hf : bucketsFind s.m_initBuckets k = some b) (hb : b ≠ []) :
    INV cfg { s with m_initBuckets := bucketsPopBack s.m_initBuckets k,
                     m_size := intWrap (s.m_size - 1) } := by
  have hcnt := bucketsCount_popBack hf hb
  have hble : b.length ≤ bucketsCount s.m_initBuckets := bucketsFind_length_le hf
  have hblen : 0 < b.length := List.length_pos.mpr hb
  have hs := h.sizeEq
  constructor
  · simp only [totalCount] at hs ⊢
    rw [hs, intWrap_sub_congr]
    congr 1
    omega
  · intro hmax
    have := h.sizeLe hmax
    simp only [totalCount] at this ⊢
    omega
  · exact h.unB
  · exact bucketsPopBack_forall h.keyB

theorem INV_pushUn {cfg : PoolCfg α} {s : PoolState α} {t : Inst α}
    (h : INV cfg s)
    (hguard : cfg.maxInventory < 2 ^ 31 → totalCount s < cfg.maxInventory)
    (hok : bucketOK cfg "" t) :
    INV cfg { s with m_unBucket := s.m_unBucket ++ [t],
                     m_size := intWrap (s.m_size + 1) } := by
  have hs := h.sizeEq
  constructor
  · simp only [totalCount] at hs ⊢
    simp only [List.length_append, List.length_singleton]
    rw [hs, intWrap_add_congr]
    congr 1
    omega
  · intro hmax
    have := hguard hmax
    simp only [totalCount, List.length_append, List.length_singleton]
    simp only [totalCount] at this
    omega
  · intro x hx
    rcases List.mem_append.mp hx with hx | hx
    · exact h.unB x hx
    · rcases List.mem_singleton.mp hx with rfl
      exact hok
  · exact h.keyB

theorem INV_pushKey {cfg : PoolCfg α} {s : PoolState α} {t : Inst α}
    (h : INV cfg s)
    (hguard : cfg.maxInventory < 2 ^ 31 → totalCount s < cfg.maxInventory)
    (hok : bucketOK cfg t.initializer t) :
    INV cfg { s with m_initBuckets :=
                       bucketsInsert s.m_initBuckets t.initializer t,
                     m_size := intWrap (s.m_size + 1) } := by
  have hs := h.sizeEq
  have hcnt := bucketsCount_insert s.m_initBuckets t.initializer t
  constructor
  · simp only [totalCount] at hs ⊢
    rw [hs, intWrap_add_congr]
    congr 1
    omega
  · intro hmax
    have := hguard hmax
    simp only [totalCount] at this ⊢
    omega
  · exact h.unB
  · exact bucketsInsert_forall h.keyB hok

theorem INV_destroy {cfg : PoolCfg α} {s : PoolState α} (h : INV cfg s)
    (n : Nat) : INV cfg { s with destroyed := n } := by
  have hs := h.sizeEq
  constructor
  · simpa [totalCount] using hs
  · intro hmax
    simpa [totalCount] using h.sizeLe hmax
  · exact h.unB
  · exact h.keyB

/-- An update that leaves the bucket store and `m_size` untouched
(the `m_incoming`, `m_keepRunning`, `m_doneCleaning` fields are free). -/
theorem INV_frame {cfg : PoolCfg α} {s : PoolState α} (h : INV cfg s)
    (q : List (Inst α)) (kr dc : Bool) :
    INV cfg { s with m_incoming := q, m_keepRunning := kr,
                     m_doneCleaning := dc } := by
  have hs := h.sizeEq
  constructor
  · simpa [totalCount] using hs
  · intro hmax
    simpa [totalCount] using h.sizeLe hmax
  · exact h.unB
  · exact h.keyB

theorem INV_get (cfg : PoolCfg α) {s : PoolState α} (h : INV cfg s)
    (key : String) : INV cfg (get cfg s key).2 := by
  unfold get
  split
  · split
    · split
      next r hu =>
        have hne : s.m_unBucket ≠ [] := by
          intro hnil
          rw [hnil] at hu
          simp at hu
        exact INV_popUn h hne
      next hu => exact h
    · split
      next b hf =>
        split
        next r hl =>
          have hbne : b ≠ [] := by
            intro hnil
            rw [hnil] at hl
            simp at hl
          exact INV_popKey h hf hbne
        next hl => exact h
      next hf => exact h
  · exact h

theorem INV_put (cfg : PoolCfg α) {s : PoolState α} (h : INV cfg s)
    (t? : Option (Inst α)) : INV cfg (put cfg s t?) := by
  unfold put
  split
  · exact h
  next t =>
    split
    · split
      · split
        · simpa using INV_frame h (s.m_incoming ++ [t]) s.m_keepRunning
            s.m_doneCleaning
        · exact INV_destroy h _
      · split
        next hsz =>
          have hcount : cfg.maxInventory < 2 ^ 31 →
              totalCount s < cfg.maxInventory := by
            intro hmax
            rwa [size_eq_totalCount h hmax] at hsz
          dsimp only
          split
          next hinit =>
            exact INV_pushUn h hcount ⟨hinit, rfl, ⟨t.payload, rfl⟩⟩
          next hinit =>
            exact INV_pushKey h hcount ⟨rfl, rfl, ⟨t.payload, rfl⟩⟩
        next hsz => exact INV_destroy h _
    · exact INV_destroy h _

theorem INV_cleanupIter (cfg : PoolCfg α) {s : PoolState α} (h : INV cfg s) :
    INV cfg (cleanupIter cfg s) := by
  unfold cleanupIter
  split
  · split
    next hq => exact h
    next t hq =>
      have h1 : INV cfg { s with m_incoming := s.m_incoming.dropLast } := by
        simpa using INV_frame h s.m_incoming.dropLast s.m_keepRunning
          s.m_doneCleaning
      dsimp only
      split
      next hsz => exact INV_destroy h1 _
      next hsz =>
        have hcount : cfg.maxInventory < 2 ^ 31 →
            totalCount { s with m_incoming := s.m_incoming.dropLast }
              < cfg.maxInventory := by
          intro hmax
          have hse := size_eq_totalCount h1 hmax
          omega
        split
        next hinit =>
          exact INV_pushUn h1 hcount ⟨hinit, rfl, ⟨t.payload, rfl⟩⟩
        next hinit =>
          exact INV_pushKey h1 hcount ⟨rfl, rfl, ⟨t.payload, rfl⟩⟩
  · simpa using INV_frame h s.m_incoming s.m_keepRunning true

theorem INV_clear (cfg : PoolCfg α) (s : PoolState α) :
    INV cfg (clear s) := by
  refine ⟨?_, ?_, ?_, ?_⟩
  · show (0 : Int) = intWrap ((0 : Nat) : Int)
    decide
  · intro _
    simp [clear, totalCount, bucketsCount]
  · simp [clear]
  · simp [clear]

theorem INV_shutdown (cfg : PoolCfg α) {s : PoolState α} (h : INV cfg s) :
    INV cfg { s with m_keepRunning := false } := by
  have hs := h.sizeEq
  constructor
  · simpa [totalCount] using hs
  · intro hmax
    simpa [totalCount] using h.sizeLe hmax
  · exact h.unB
  · exact h.keyB

theorem INV_step (cfg : PoolCfg α) {s : PoolState α} (h : INV cfg s)
    (ev : Ev α) : INV cfg (step cfg s ev) := by
  cases ev with
  | getEv k => exact INV_get cfg h k
  | putEv t => exact INV_put cfg h t
  | work => exact INV_cleanupIter cfg h
  | shutdown => exact INV_shutdown cfg h
  | clearEv => exact INV_clear cfg s

theorem INV_foldl (cfg : PoolCfg α) {s : PoolState α} (h : INV cfg s)
    (evs : List (Ev α)) : INV cfg (evs.foldl (step cfg) s) := by
  induction evs generalizing s with
  | nil => exact h
  | cons ev rest ih => exact ih (INV_step cfg h ev)

/-- Every state reachable from a fresh pool satisfies the invariant. -/
theorem INV_run (cfg : PoolCfg α) (evs : List (Ev α)) :
    INV cfg (run cfg evs) :=
  INV_foldl cfg (INV_initState cfg) evs

/-! ## Helper lemmas about the individual operations -/

theorem toSizeT_lt (i : Int) : toSizeT i < 2 ^ 64 := by
  unfold toSizeT
  have h1 : (0 : Int) < 2 ^ 64 := by positivity
  have h2 := Int.emod_lt_of_pos i h1
  omega

theorem mem_bucketInsts {s : PoolState α} {t : Inst α} :
    t ∈ bucketInsts s ↔
      t ∈ s.m_unBucket ∨ ∃ e ∈ s.m_initBuckets, t ∈ e.2 := by
  simp only [bucketInsts, List.mem_append, List.mem_flatten, List.mem_map]
  constructor
  · rintro (h | ⟨l, ⟨e, he, rfl⟩, hl⟩)
    · exact Or.inl h
    · exact Or.inr ⟨e, he, hl⟩
  · rintro (h | ⟨e, he, hl⟩)
    · exact Or.inl h
    · exact Or.inr ⟨e.2, ⟨e, he, rfl⟩, hl⟩

/-- Where the instance handed out by `get` comes from: a hit pops the back of
the requested bucket (default bucket for the empty key, the key's own bucket
otherwise); every other path — including a stopped pool — executes
`new T(initializer)`. -/
theorem get_result_cases (cfg : PoolCfg α) (s : PoolState α) (key : String) :
    (get cfg s key).1 = cfg.newT key
    ∨ (key = "" ∧ (get cfg s key).1 ∈ s.m_unBucket)
    ∨ (key ≠ "" ∧ ∃ b, bucketsFind s.m_initBuckets key = some b
         ∧ (get cfg s key).1 ∈ b) := by
  unfold get
  split
  · split
    next hkey =>
      split
      next r hu =>
        right
        left
        exact ⟨hkey, List.mem_of_getLast?_eq_some hu⟩
      next hu =>
        left
        rfl
    next hkey =>
      split
      next b hf =>
        split
        next r hl =>
          right
          right
          exact ⟨hkey, b, hf, List.mem_of_getLast?_eq_some hl⟩
        next hl =>
          left
          rfl
      next hf =>
        left
        rfl
  · left
    rfl

theorem get_keepRunning (cfg : PoolCfg α) (s : PoolState α) (key : String) :
    (get cfg s key).2.m_keepRunning = s.m_keepRunning := by
  unfold get
  split
  · split
    · split <;> rfl
    · split
      · split <;> rfl
      · rfl
  · rfl

theorem put_keepRunning (cfg : PoolCfg α) (s : PoolState α)
    (t? : Option (Inst α)) :
    (put cfg s t?).m_keepRunning = s.m_keepRunning := by
  unfold put
  split
  · rfl
  · split
    · split
      · split <;> rfl
      · dsimp only
        split
        · split <;> rfl
        · rfl
    · rfl

theorem cleanupIter_keepRunning (cfg : PoolCfg α) (s : PoolState α) :
    (cleanupIter cfg s).m_keepRunning = s.m_keepRunning := by
  unfold cleanupIter
  split
  · split
    · rfl
    · dsimp only
      split
      · rfl
      · split <;> rfl
  · rfl

theorem clear_keepRunning (s : PoolState α) :
    (clear s).m_keepRunning = s.m_keepRunning := rfl

/-- Characterization of a synchronous `put` that restocks: occupancy grows by
one, nothing is destroyed, and the remaining fields are untouched. -/
theorem put_sync_push {cfg : PoolCfg α} {s : PoolState α} {t : Inst α}
    (hrun : s.m_keepRunning = true) (hbg : t.cleanInBg = false)
    (hsz : size s < cfg.maxInventory) :
    totalCount (put cfg s (some t)) = totalCount s + 1
    ∧ (put cfg s (some t)).destroyed = s.destroyed
    ∧ (put cfg s (some t)).m_keepRunning = true := by
  simp only [put]
  rw [if_pos hrun, hbg]
  simp only [Bool.false_eq_true, if_false, if_pos hsz]
  split
  · refine ⟨?_, rfl, hrun⟩
    simp [totalCount]
    omega
  · refine ⟨?_, rfl, hrun⟩
    simp only [totalCount]
    rw [bucketsCount_insert]
    omega

/-- Characterization of a synchronous `put` that finds the inventory full:
the instance is destroyed and the state is otherwise unchanged. -/
theorem put_sync_drop {cfg : PoolCfg α} {s : PoolState α} {t : Inst α}
    (hrun : s.m_keepRunning = true) (hbg : t.cleanInBg = false)
    (hsz : ¬size s < cfg.maxInventory) :
    put cfg s (some t) = { s with destroyed := s.destroyed + 1 } := by
  simp only [put]
  rw [if_pos hrun, hbg]
  simp only [Bool.false_eq_true, if_false, if_neg hsz]

/-! ## Concrete configurations and instances used for evaluation -/

/-- A concrete configuration over `String` payloads mirroring the repository's
`test_class` (whose `clean()` resets `data` to the empty string), with
`maxInventory = 1` and `maxToClean = 1` as in the tests.  The stored
constructor and the behaviour of `new T(...)` produce distinguishable
payloads, so evaluation shows which one `get` uses. -/
def cfgA : PoolCfg String :=
  { constructor := fun k =>
      { initializer := k, cleanInBg := false,
        payload := "made-by-m-constructor", cleaned := false }
    newT := fun k =>
      { initializer := k, cleanInBg := false,
        payload := "made-by-new-T", cleaned := false }
    cleanFn := fun _ => ""
    maxInventory := 1
    maxToClean := 1 }

/-- The same configuration with room for two idle instances per bucket. -/
def cfgB : PoolCfg String :=
  { cfgA with maxInventory := 10 }

/-- A used (dirty) instance, keyed "init", synchronous cleaning. -/
def instA : Inst String :=
  { initializer := "init", cleanInBg := false, payload := "914",
    cleaned := false }

/-- A second dirty instance with the same key. -/
def instB : Inst String :=
  { initializer := "init", cleanInBg := false, payload := "915",
    cleaned := false }

/-! ## The claims -/

/-- C1: the claim that `get` invokes the caller-supplied construction function
`m_constructor` on a bucket miss is refuted by the code: `pool::get` never
reads the stored `m_constructor`; on every miss — and when the pool is no
longer running — it executes `new T(initializer)` instead.  The first conjunct
proves `get` is insensitive to the stored constructor; the remaining conjuncts
evaluate a miss on a fresh pool and on a stopped pool: the result is the
product of `new T(initializer)`, not of the stored constructor. -/
theorem C1_constructor_never_invoked_on_miss :
    (∀ (cfg : PoolCfg String) (c : String → Inst String)
       (s : PoolState String) (k : String),
        get { cfg with constructor := c } s k = get cfg s k)
    ∧ (get cfgA (initState String) "init").1 = cfgA.newT "init"
    ∧ (get cfgA (initState String) "init").1 ≠ cfgA.constructor "init"
    ∧ (get cfgA { initState String with m_keepRunning := false } "init").1
        = cfgA.newT "init" := by
  refine ⟨fun cfg c s k => rfl, rfl, ?_, rfl⟩
  decide

/-- C2: in every reachable pool state, every instance sitting in any bucket
has been reset before it entered the bucket — its ghost `cleaned` flag is set
exactly where the C++ runs `t->clean()` (inside `put` before the push on the
synchronous path, in the worker before the insert on the background path) and
its payload is an output of the clean routine — and therefore whatever `get`
hands out from a bucket is in its post-reset state (the alternative being a
fresh `new T(initializer)` on a miss). -/
theorem C2_instances_enter_buckets_cleaned (α : Type) (cfg : PoolCfg α)
    (evs : List (Ev α)) :
    (∀ t ∈ bucketInsts (run cfg evs),
       t.cleaned = true ∧ ∃ p, t.payload = cfg.cleanFn p)
    ∧ ∀ key, (get cfg (run cfg evs) key).1 = cfg.newT key
        ∨ ((get cfg (run cfg evs) key).1.cleaned = true
           ∧ ∃ p, (get cfg (run cfg evs) key).1.payload = cfg.cleanFn p) := by
  have hinv := INV_run cfg evs
  constructor
  · intro t ht
    rcases mem_bucketInsts.mp ht with h1 | ⟨e, he, hte⟩
    · exact ⟨(hinv.unB t h1).2.1, (hinv.unB t h1).2.2⟩
    · exact ⟨(hinv.keyB e he t hte).2.1, (hinv.keyB e he t hte).2.2⟩
  · intro key
    rcases get_result_cases cfg (run cfg evs) key with
      h | ⟨hk, hmem⟩ | ⟨hk, b, hf, hmem⟩
    · exact Or.inl h
    · have hb := hinv.unB _ hmem
      exact Or.inr ⟨hb.2.1, hb.2.2⟩
    · have hb := hinv.keyB _ (bucketsFind_mem hf) _ hmem
      exact Or.inr ⟨hb.2.1, hb.2.2⟩

/-- C2 witness: one synchronous check-in of the dirty `instA` into a fresh
pool leaves its cleaned image in the "init" bucket. -/
theorem C2_witness :
    (cleanApply cfgA.cleanFn instA).cleaned = true
    ∧ ∃ p, (cleanApply cfgA.cleanFn instA).payload = cfgA.cleanFn p :=
  (C2_instances_enter_buckets_cleaned String cfgA [Ev.putEv (some instA)]).1
    (cleanApply cfgA.cleanFn instA) (by decide)

/-- C10: a null check-in is a no-op (`put(nullptr)` returns immediately, so
null never reaches a bucket or the cleaning queue), and the pointer `get`
returns is always a real instance: either one previously stocked in a bucket
(only `put` and the worker insert there, pushing the instance that passed the
null check) or the product of `new T(initializer)` on a miss; consequently
the handle built by `pool_use`'s constructor always holds a valid pointer for
its `get()` accessor to dereference. -/
theorem C10_get_never_null (α : Type) :
    (∀ (cfg : PoolCfg α) (s : PoolState α), put cfg s none = s)
    ∧ (∀ (cfg : PoolCfg α) (s : PoolState α) (key : String),
        (get cfg s key).1 ∈ bucketInsts s ∨ (get cfg s key).1 = cfg.newT key)
    ∧ (∀ (cfg : PoolCfg α) (s : PoolState α) (key : String),
        useGet (useCtor cfg s key).1 = some (get cfg s key).1) := by
  refine ⟨fun cfg s => rfl, ?_, fun cfg s key => rfl⟩
  intro cfg s key
  rcases get_result_cases cfg s key with h | ⟨hk, hmem⟩ | ⟨hk, b, hf, hmem⟩
  · exact Or.inr h
  · exact Or.inl (mem_bucketInsts.mpr (Or.inl hmem))
  · exact Or.inl
      (mem_bucketInsts.mpr (Or.inr ⟨(key, b), bucketsFind_mem hf, hmem⟩))

/-- C5: key isolation.  First: in any reachable state, what `get key` returns
is either freshly constructed for `key` or carries `key` as its own
initializer — an instance checked in under a different key A is never handed
out for a request of key B.  Second and third: a `get` with a non-empty key
touches no other keyed bucket and not the default bucket, and a `get` with
the empty key touches no keyed bucket at all. -/
theorem C5_key_isolation (α : Type) :
    (∀ (cfg : PoolCfg α) (evs : List (Ev α)) (key : String),
        (get cfg (run cfg evs) key).1 = cfg.newT key
        ∨ ((get cfg (run cfg evs) key).1).initializer = key)
    ∧ (∀ (cfg : PoolCfg α) (s : PoolState α) (key k : String),
        key ≠ "" → k ≠ key →
        bucketsFind (get cfg s key).2.m_initBuckets k
            = bucketsFind s.m_initBuckets k
        ∧ (get cfg s key).2.m_unBucket = s.m_unBucket)
    ∧ (∀ (cfg : PoolCfg α) (s : PoolState α),
        (get cfg s "").2.m_initBuckets = s.m_initBuckets) := by
  refine ⟨?_, ?_, ?_⟩
  · intro cfg evs key
    have hinv := INV_run cfg evs
    rcases get_result_cases cfg (run cfg evs) key with
      h | ⟨hk, hmem⟩ | ⟨hk, b, hf, hmem⟩
    · exact Or.inl h
    · right
      subst hk
      exact (hinv.unB _ hmem).1
    · right
      exact (hinv.keyB _ (bucketsFind_mem hf) _ hmem).1
  · intro cfg s key k hkey hk
    unfold get
    rw [if_neg hkey]
    by_cases hrun : s.m_keepRunning = true
    · rw [if_pos hrun]
      cases hf : bucketsFind s.m_initBuckets key with
      | none => exact ⟨rfl, rfl⟩
      | some b =>
        dsimp only
        cases hl : b.getLast? with
        | none => exact ⟨rfl, rfl⟩
        | some r => exact ⟨bucketsFind_popBack_ne hk, rfl⟩
    · rw [if_neg hrun]
      exact ⟨rfl, rfl⟩
  · intro cfg s
    unfold get
    by_cases hrun : s.m_keepRunning = true
    · rw [if_pos hrun, if_pos rfl]
      cases hu : s.m_unBucket.getLast? with
      | none => rfl
      | some r => rfl
    · rw [if_neg hrun]

/-- C5 witness: getting key "a" from a fresh pool touches neither bucket "b"
nor the default bucket. -/
theorem C5_witness :
    bucketsFind (get cfgA (initState String) "a").2.m_initBuckets "b"
        = bucketsFind (initState String).m_initBuckets "b"
    ∧ (get cfgA (initState String) "a").2.m_unBucket
        = (initState String).m_unBucket :=
  (C5_key_isolation String).2.1 cfgA (initState String) "a" "b" (by decide)
    (by decide)

/-- Running a block of synchronous check-ins from any invariant-satisfying
running state: the inventory fills to `maxInventory` and stays there, and
exactly the overflow beyond `maxInventory` is destroyed. -/
theorem puts_fold_count {cfg : PoolCfg α} (hmax : cfg.maxInventory < 2 ^ 31) :
    ∀ (ts : List (Inst α)) (s : PoolState α), INV cfg s →
      s.m_keepRunning = true → (∀ t ∈ ts, t.cleanInBg = false) →
      totalCount (ts.foldl (fun s t => put cfg s (some t)) s)
          = min cfg.maxInventory (totalCount s + ts.length)
      ∧ (ts.foldl (fun s t => put cfg s (some t)) s).destroyed
          = s.destroyed + (totalCount s + ts.length - cfg.maxInventory) := by
  intro ts
  induction ts with
  | nil =>
    intro s hinv _ _
    have hle := hinv.sizeLe hmax
    constructor
    · simp only [List.foldl_nil, List.length_nil]
      omega
    · simp only [List.foldl_nil, List.length_nil]
      omega
  | cons t ts ih =>
    intro s hinv hrun hts
    have hle := hinv.sizeLe hmax
    have hse := size_eq_totalCount hinv hmax
    have hbg : t.cleanInBg = false := hts t (List.mem_cons_self _ _)
    by_cases hsz : size s < cfg.maxInventory
    · have hpush := put_sync_push hrun hbg hsz
      have hinv' := INV_put cfg hinv (some t)
      have hih := ih (put cfg s (some t)) hinv' hpush.2.2
        (fun x hx => hts x (List.mem_cons_of_mem _ hx))
      have h1 := hih.1
      have h2 := hih.2
      have h3 := hpush.1
      have h4 := hpush.2.1
      simp only [List.foldl_cons, List.length_cons] at *
      omega
    · have hdrop := put_sync_drop hrun hbg hsz
      have hinv' : INV cfg { s with destroyed := s.destroyed + 1 } :=
        INV_destroy hinv _
      have hrun' : ({ s with destroyed := s.destroyed + 1 }
          : PoolState α).m_keepRunning = true := hrun
      have hih := ih { s with destroyed := s.destroyed + 1 } hinv' hrun'
        (fun x hx => hts x (List.mem_cons_of_mem _ hx))
      have h1 : totalCount (ts.foldl (fun s t => put cfg s (some t))
            { s with destroyed := s.destroyed + 1 })
          = min cfg.maxInventory (totalCount s + ts.length) := hih.1
      have h2 : (ts.foldl (fun s t => put cfg s (some t))
            { s with destroyed := s.destroyed + 1 }).destroyed
          = s.destroyed + 1 + (totalCount s + ts.length - cfg.maxInventory) :=
        hih.2
      simp only [List.foldl_cons, List.length_cons, hdrop]
      omega

/-- Shape of a synchronous restocking `put` of an instance with a non-empty
initializer: `clean()` runs, then the cleaned instance is appended (push_back)
to the bucket named by its own initializer. -/
theorem put_sync_push_key {cfg : PoolCfg α} {s : PoolState α} {t : Inst α}
    (hrun : s.m_keepRunning = true) (hbg : t.cleanInBg = false)
    (hsz : size s < cfg.maxInventory) (hne : t.initializer ≠ "") :
    put cfg s (some t)
      = { s with m_initBuckets :=
                   bucketsInsert s.m_initBuckets t.initializer
                     (cleanApply cfg.cleanFn t),
                 m_size := intWrap (s.m_size + 1) } := by
  have hne' : ¬(cleanApply cfg.cleanFn t).initializer = "" := hne
  simp only [put]
  rw [if_pos hrun, hbg]
  simp only [Bool.false_eq_true, if_false, if_pos hsz]
  rw [if_neg hne']
  rfl

/-- Shape of a synchronous restocking `put` of an instance with the empty
initializer: `clean()` runs, then the cleaned instance is appended to the
default bucket. -/
theorem put_sync_push_un {cfg : PoolCfg α} {s : PoolState α} {t : Inst α}
    (hrun : s.m_keepRunning = true) (hbg : t.cleanInBg = false)
    (hsz : size s < cfg.maxInventory) (hinit : t.initializer = "") :
    put cfg s (some t)
      = { s with m_unBucket := s.m_unBucket ++ [cleanApply cfg.cleanFn t],
                 m_size := intWrap (s.m_size + 1) } := by
  have hinit' : (cleanApply cfg.cleanFn t).initializer = "" := hinit
  simp only [put]
  rw [if_pos hrun, hbg]
  simp only [Bool.false_eq_true, if_false, if_pos hsz]
  rw [if_pos hinit']

/-- Shape of a worker iteration that pops the back of the queue, cleans, and
restocks into the bucket named by the instance's own initializer
(non-empty-key case). -/
theorem cleanupIter_push_key {cfg : PoolCfg α} {s : PoolState α} {t : Inst α}
    (hrun : s.m_keepRunning = true) (hq : s.m_incoming.getLast? = some t)
    (hsz : ¬cfg.maxInventory ≤ size s) (hne : t.initializer ≠ "") :
    cleanupIter cfg s
      = { s with m_incoming := s.m_incoming.dropLast,
                 m_initBuckets :=
                   bucketsInsert s.m_initBuckets t.initializer
                     (cleanApply cfg.cleanFn t),
                 m_size := intWrap (s.m_size + 1) } := by
  have hne' : ¬(cleanApply cfg.cleanFn t).initializer = "" := hne
  have hsz' : ¬cfg.maxInventory ≤
      size { s with m_incoming := s.m_incoming.dropLast } := hsz
  unfold cleanupIter
  rw [if_pos hrun, hq]
  dsimp only
  rw [if_neg hsz', if_neg hne']
  rfl

/-- Shape of a worker iteration that restocks into the default bucket
(empty-key case). -/
theorem cleanupIter_push_un {cfg : PoolCfg α} {s : PoolState α} {t : Inst α}
    (hrun : s.m_keepRunning = true) (hq : s.m_incoming.getLast? = some t)
    (hsz : ¬cfg.maxInventory ≤ size s) (hinit : t.initializer = "") :
    cleanupIter cfg s
      = { s with m_incoming := s.m_incoming.dropLast,
                 m_unBucket := s.m_unBucket ++ [cleanApply cfg.cleanFn t],
                 m_size := intWrap (s.m_size + 1) } := by
  have hinit' : (cleanApply cfg.cleanFn t).initializer = "" := hinit
  have hsz' : ¬cfg.maxInventory ≤
      size { s with m_incoming := s.m_incoming.dropLast } := hsz
  unfold cleanupIter
  rw [if_pos hrun, hq]
  dsimp only
  rw [if_neg hsz', if_pos hinit']

/-- An instance with the empty initializer (routed to the default bucket),
used to drive the occupancy counter to its wrap point. -/
def instW : Inst String :=
  { initializer := "", cleanInBg := false, payload := "w", cleaned := false }

/-- A pool whose `maxInventory` is exactly `2^31`: a legal `size_t` bound
under which the 32-bit occupancy counter wraps after `2^31` restocks. -/
def cfgW : PoolCfg String :=
  { cfgA with maxInventory := 2 ^ 31 }

/-- The pool state after `n` synchronous check-ins of `instW` into a fresh
`cfgW` pool (for `n ≤ 2^31`): `n` cleaned copies in the default bucket, and
the wrapped image of `n` in `m_size`. -/
def wrapState (n : Nat) : PoolState String :=
  { m_unBucket := List.replicate n (cleanApply cfgW.cleanFn instW)
    m_initBuckets := []
    m_size := intWrap n
    m_incoming := []
    m_keepRunning := true
    m_doneCleaning := false
    destroyed := 0 }

/-- Running `n ≤ 2^31` synchronous check-ins of `instW` from a fresh `cfgW`
pool reaches `wrapState n`: every check-in passes the `size() < maxInventory`
guard (the guard reads the wrapped counter, which stays below `2^31` until
the very moment it wraps), so all `n` instances are restocked. -/
theorem run_replicate_put :
    ∀ n, n ≤ 2 ^ 31 →
      run cfgW (List.replicate n (Ev.putEv (some instW))) = wrapState n := by
  intro n
  induction n with
  | zero =>
    intro _
    show initState String = wrapState 0
    decide
  | succ n ih =>
    intro hn
    have hn' : n ≤ 2 ^ 31 := le_of_lt (lt_of_lt_of_le (Nat.lt_succ_self n) hn)
    have hlt : n < 2 ^ 31 := lt_of_lt_of_le (Nat.lt_succ_self n) hn
    have hwrap : intWrap (n : Int) = (n : Int) :=
      intWrap_eq_self (by omega) (by exact_mod_cast hlt)
    have hrw : run cfgW (List.replicate (n + 1) (Ev.putEv (some instW)))
        = put cfgW (wrapState n) (some instW) := by
      rw [List.replicate_succ']
      unfold run
      rw [List.foldl_append]
      show step cfgW (run cfgW (List.replicate n (Ev.putEv (some instW))))
        (Ev.putEv (some instW)) = _
      rw [ih hn']
      rfl
    have hsz : size (wrapState n) < cfgW.maxInventory := by
      show toSizeT (wrapState n).m_size < cfgW.maxInventory
      show toSizeT (intWrap (n : Int)) < cfgW.maxInventory
      rw [hwrap, toSizeT_natCast (by omega)]
      exact hlt
    rw [hrw, put_sync_push_un rfl rfl hsz rfl]
    show ({ wrapState n with
        m_unBucket := (wrapState n).m_unBucket ++ [cleanApply cfgW.cleanFn instW],
        m_size := intWrap ((wrapState n).m_size + 1) } : PoolState String)
      = wrapState (n + 1)
    unfold wrapState
    rw [← List.replicate_succ']
    have : intWrap (intWrap (n : Int) + 1) = intWrap ((n : Nat) + 1 : Int) :=
      intWrap_add_congr _ _
    rw [this]
    norm_num

/-- C3 counterexample: with the legal bound `maxInventory = 2^31`, after
`2^31` synchronous releases into a fresh pool (no concurrent checkouts), the
32-bit occupancy counter wraps to `-2^31` and the `size_t` cast in `size()`
reads `2^64 - 2^31`, which exceeds `maxInventory` — refuting the claim that
`size()` never exceeds `maxInventory` for every sequence of operations. -/
theorem C3_counterexample :
    ¬ size (run cfgW (List.replicate (2 ^ 31) (Ev.putEv (some instW))))
        ≤ cfgW.maxInventory := by
  rw [run_replicate_put (2 ^ 31) le_rfl]
  show ¬ toSizeT (intWrap ((2 ^ 31 : Nat) : Int)) ≤ cfgW.maxInventory
  decide

/-- C3 amended: whenever `maxInventory < 2^31` — so the 32-bit occupancy
counter can never wrap — the reported idle inventory `size()` never exceeds
`maxInventory` across all reachable states (`put` restocks only under
`size() < maxInventory`, the worker drops whenever `size() >= maxInventory`),
and releasing `maxInventory + k` synchronously-cleaned instances into a fresh
pool with no concurrent checkouts leaves exactly `maxInventory` in inventory
and destroys exactly the `k` excess instances. -/
theorem C3_capacity_bound (α : Type) :
    (∀ (cfg : PoolCfg α) (evs : List (Ev α)),
        cfg.maxInventory < 2 ^ 31 →
        size (run cfg evs) ≤ cfg.maxInventory)
    ∧ (∀ (cfg : PoolCfg α) (ts : List (Inst α)),
        cfg.maxInventory < 2 ^ 31 →
        (∀ t ∈ ts, t.cleanInBg = false) →
        cfg.maxInventory < ts.length →
        totalCount (ts.foldl (fun s t => put cfg s (some t)) (initState α))
            = cfg.maxInventory
        ∧ (ts.foldl (fun s t => put cfg s (some t)) (initState α)).destroyed
            = ts.length - cfg.maxInventory) := by
  constructor
  · intro cfg evs hmax
    have hinv := INV_run cfg evs
    rw [size_eq_totalCount hinv hmax]
    exact hinv.sizeLe hmax
  · intro cfg ts hmax hts hk
    have h := puts_fold_count hmax ts (initState α) (INV_initState cfg) rfl hts
    have h1 := h.1
    have h2 := h.2
    have h3 : totalCount (initState α) = 0 := rfl
    have h4 : (initState α).destroyed = 0 := rfl
    constructor
    · omega
    · omega

/-- C3 witness: two synchronous releases into a fresh pool with
`maxInventory = 1` retain one instance and destroy exactly one. -/
theorem C3_witness :
    totalCount ([instA, instB].foldl (fun s t => put cfgA s (some t))
        (initState String)) = cfgA.maxInventory
    ∧ ([instA, instB].foldl (fun s t => put cfgA s (some t))
        (initState String)).destroyed
      = [instA, instB].length - cfgA.maxInventory :=
  (C3_capacity_bound String).2 cfgA [instA, instB] (by decide)
    (by decide) (by decide)

/-- C4: once `m_keepRunning` is false it stays false under every step; a
`put` arriving then destroys its instance and changes nothing else (in
particular it adds nothing to any bucket or to the cleaning queue); a worker
iteration then pops nothing and inserts nothing — it only exits the loop,
acknowledging via `m_doneCleaning`. -/
theorem C4_shutdown_no_restock (α : Type) (cfg : PoolCfg α)
    (s : PoolState α) (h : s.m_keepRunning = false) :
    (∀ ev, (step cfg s ev).m_keepRunning = false)
    ∧ (∀ t, put cfg s (some t) = { s with destroyed := s.destroyed + 1 })
    ∧ cleanupIter cfg s = { s with m_doneCleaning := true } := by
  refine ⟨?_, ?_, ?_⟩
  · intro ev
    cases ev with
    | getEv k => exact (get_keepRunning cfg s k).trans h
    | putEv t => exact (put_keepRunning cfg s t).trans h
    | work => exact (cleanupIter_keepRunning cfg s).trans h
    | shutdown => rfl
    | clearEv => exact (clear_keepRunning s).trans h
  · intro t
    simp only [put]
    rw [if_neg (by simp [h])]
  · unfold cleanupIter
    rw [if_neg (by simp [h])]

/-- C4 witness at a concrete stopped pool. -/
theorem C4_witness :
    (∀ ev, (step cfgA { initState String with m_keepRunning := false }
        ev).m_keepRunning = false)
    ∧ (∀ t, put cfgA { initState String with m_keepRunning := false } (some t)
        = { { initState String with m_keepRunning := false } with
              destroyed := ({ initState String with
                m_keepRunning := false } : PoolState String).destroyed + 1 })
    ∧ cleanupIter cfgA { initState String with m_keepRunning := false }
        = { { initState String with m_keepRunning := false } with
              m_doneCleaning := true } :=
  C4_shutdown_no_restock String cfgA
    { initState String with m_keepRunning := false } rfl

/-- C6: hand-out is LIFO within a bucket.  After any synchronous restocking
check-in (put pushes the cleaned instance on the back of its bucket), an
immediately following `get` for that bucket's key pops the back and returns
exactly that most recently restocked instance. -/
theorem C6_lifo_handout (α : Type) (cfg : PoolCfg α) (s : PoolState α)
    (t : Inst α) (hrun : s.m_keepRunning = true) (hbg : t.cleanInBg = false)
    (hsz : size s < cfg.maxInventory) :
    (get cfg (put cfg s (some t)) t.initializer).1
      = cleanApply cfg.cleanFn t := by
  by_cases hinit : t.initializer = ""
  · rw [put_sync_push_un hrun hbg hsz hinit]
    unfold get
    rw [if_pos hrun, hinit, if_pos rfl]
    dsimp only
    rw [List.getLast?_concat]
  · rw [put_sync_push_key hrun hbg hsz hinit]
    unfold get
    rw [if_pos hrun, if_neg hinit]
    dsimp only
    rw [bucketsFind_insert_self]
    dsimp only
    rw [List.getLast?_concat]

/-- C6 witness: a fresh pool, one synchronous check-in of `instA`, then a
`get` of its key returns exactly the cleaned `instA`. -/
theorem C6_witness :
    (get cfgA (put cfgA (initState String) (some instA)) instA.initializer).1
      = cleanApply cfgA.cleanFn instA :=
  C6_lifo_handout String cfgA (initState String) instA rfl rfl (by decide)

/-- C7: the destructor sequence — raise the shutdown flag, let the worker
observe it, exit and acknowledge (`m_doneCleaning`), then `clear()` — leaves
every bucket and the cleaning queue empty, reports `size() = 0`, and destroys
exactly the instances that were remaining in the buckets and the queue. -/
theorem C7_dtor_drains (α : Type) (cfg : PoolCfg α) (s : PoolState α) :
    (dtor cfg s).m_unBucket = [] ∧ (dtor cfg s).m_initBuckets = []
    ∧ (dtor cfg s).m_incoming = [] ∧ size (dtor cfg s) = 0
    ∧ (dtor cfg s).m_doneCleaning = true
    ∧ (dtor cfg s).destroyed
        = s.destroyed + totalCount s + s.m_incoming.length := by
  have hstop : cleanupIter cfg { s with m_keepRunning := false }
      = { s with m_keepRunning := false, m_doneCleaning := true } := by
    unfold cleanupIter
    rw [if_neg (by simp)]
  unfold dtor
  rw [hstop]
  refine ⟨rfl, rfl, rfl, ?_, rfl, ?_⟩
  · simp [clear, size, toSizeT]
  · simp [clear, totalCount]
    omega

/-- C8 counterexample: `pool_use` (and `use`) declare no move operations, so
`std::move`-initializing one handle from another invokes the implicit copy
constructor: the source handle keeps its pointer (first conjunct).  When both
handles are then destroyed, each calls `put` for the same instance, and the
same pointer ends up in the "init" bucket twice — `put` ran twice, not once,
refuting the exactly-once release after a transfer. -/
theorem C8_counterexample :
    (useMove { m_t := some instA } : pool_use String × pool_use String).2.m_t
        = some instA
    ∧ (useDtor cfgB
        (useDtor cfgB (initState String)
          (useMove { m_t := some instA }).1).2
        (useMove { m_t := some instA }).2).2.m_initBuckets
      = [("init", [cleanApply cfgB.cleanFn instA,
                   cleanApply cfgB.cleanFn instA])] := by
  constructor
  · rfl
  · decide

/-- C8 amended: the handle performs no ownership transfer — what `std::move`
selects is the implicit copy, which leaves both handles holding the same
pointer — and for a single (unduplicated) handle the destructor calls `put`
exactly once and clears `m_t`, so destroying the already-released handle is a
no-op on the pool. -/
theorem C8_release_once (α : Type) (cfg : PoolCfg α) (s : PoolState α)
    (u : pool_use α) :
    (useMove u).1 = u ∧ (useMove u).2 = u
    ∧ (useDtor cfg s u).1.m_t = none
    ∧ (useDtor cfg s u).2 = put cfg s u.m_t
    ∧ (useDtor cfg (useDtor cfg s u).2 (useDtor cfg s u).1).2
        = (useDtor cfg s u).2 :=
  ⟨rfl, rfl, rfl, rfl, rfl⟩

/-- C9: check-in routes by the instance's own stored `initializer()`, never
by the key of the `get` that produced it (`put` does not even receive that
key).  A synchronous restocking `put` appends the cleaned instance to the
bucket named `t.initializer()` — the default bucket exactly when it is
empty — and leaves every other bucket unchanged; the background worker does
the same for the instance popped from the cleaning queue. -/
theorem C9_put_routes_by_initializer (α : Type) (cfg : PoolCfg α)
    (s : PoolState α) (t : Inst α) (hrun : s.m_keepRunning = true)
    (hbg : t.cleanInBg = false) (hsz : size s < cfg.maxInventory) :
    ((t.initializer ≠ "" →
        bucketsFind (put cfg s (some t)).m_initBuckets t.initializer
          = some ((bucketsFind s.m_initBuckets t.initializer).getD []
              ++ [cleanApply cfg.cleanFn t])
        ∧ (put cfg s (some t)).m_unBucket = s.m_unBucket
        ∧ ∀ k, k ≠ t.initializer →
            bucketsFind (put cfg s (some t)).m_initBuckets k
              = bucketsFind s.m_initBuckets k)
     ∧ (t.initializer = "" →
         (put cfg s (some t)).m_unBucket
             = s.m_unBucket ++ [cleanApply cfg.cleanFn t]
         ∧ (put cfg s (some t)).m_initBuckets = s.m_initBuckets))
    ∧ (s.m_incoming.getLast? = some t → ¬cfg.maxInventory ≤ size s →
        (t.initializer ≠ "" →
          bucketsFind (cleanupIter cfg s).m_initBuckets t.initializer
            = some ((bucketsFind s.m_initBuckets t.initializer).getD []
                ++ [cleanApply cfg.cleanFn t])
          ∧ (cleanupIter cfg s).m_unBucket = s.m_unBucket
          ∧ ∀ k, k ≠ t.initializer →
              bucketsFind (cleanupIter cfg s).m_initBuckets k
                = bucketsFind s.m_initBuckets k)
        ∧ (t.initializer = "" →
            (cleanupIter cfg s).m_unBucket
              = s.m_unBucket ++ [cleanApply cfg.cleanFn t]
            ∧ (cleanupIter cfg s).m_initBuckets = s.m_initBuckets)) := by
  constructor
  · constructor
    · intro hne
      rw [put_sync_push_key hrun hbg hsz hne]
      exact ⟨bucketsFind_insert_self _ _ _, rfl,
        fun k hk => bucketsFind_insert_ne hk⟩
    · intro hinit
      rw [put_sync_push_un hrun hbg hsz hinit]
      exact ⟨rfl, rfl⟩
  · intro hq hsz'
    constructor
    · intro hne
      rw [cleanupIter_push_key hrun hq hsz' hne]
      exact ⟨bucketsFind_insert_self _ _ _, rfl,
        fun k hk => bucketsFind_insert_ne hk⟩
    · intro hinit
      rw [cleanupIter_push_un hrun hq hsz' hinit]
      exact ⟨rfl, rfl⟩

/-- C9 witness: checking `instA` (initializer "init") into a fresh pool under
key-free conditions places it in bucket "init" and touches nothing else. -/
theorem C9_witness :
    bucketsFind (put cfgB (initState String) (some instA)).m_initBuckets
        instA.initializer
      = some ((bucketsFind (initState String).m_initBuckets instA.initializer).getD []
          ++ [cleanApply cfgB.cleanFn instA])
    ∧ (put cfgB (initState String) (some instA)).m_unBucket
        = (initState String).m_unBucket :=
  let h := (C9_put_routes_by_initializer String cfgB (initState String) instA
    rfl rfl (by decide)).1.1 (by decide)
  ⟨h.1, h.2.1⟩

end Reuse
